import Mathlib

set_option maxRecDepth 8000

/-!
Verification of the generic CRUD/export engine in supersetapiclient/base.py:
the Object entity contract (from_json / to_json / __post_init__), the
raise_for_status error translation, and the ObjectFactories collection
operations (find, find_one, add, delete, bulk export).

The embedding models Python JSON values by the inductive type Py, and the
stdlib json module by an executable serializer (pyDumps) and parser
(pyLoads).  Numbers are modelled as integers (the payloads this layer
handles are integral; floats are outside the model) and pyDumps writes
non-ASCII characters directly instead of using ASCII escapes; neither
simplification is observable by the properties proved here, which depend
on the serializer/parser pair only through invertibility.
-/

/-- Python values as produced by json.loads and consumed by json.dumps. -/
inductive Py where
  | null
  | bool (b : Bool)
  | int (n : Int)
  | str (s : String)
  | list (elems : List Py)
  | dict (entries : List (String × Py))
deriving Repr, Inhabited

/-- The character `\x7b` (left brace), named so it can be used freely. -/
def lbraceC : Char := '\x7b'

/-- The character `\x7d` (right brace). -/
def rbraceC : Char := '\x7d'

/-- JSON whitespace accepted between tokens (space, tab, newline,
carriage return). -/
def isWsChar (c : Char) : Bool :=
  c.toNat = 32 || c.toNat = 9 || c.toNat = 10 || c.toNat = 13

/-- Decimal digit test on scalar values (avoids UInt32 arithmetic). -/
def isDigitChar (c : Char) : Bool :=
  48 ≤ c.toNat && c.toNat ≤ 57

/-- Numeric value of a decimal digit character. -/
def dval (c : Char) : Nat := c.toNat - 48

/-- Hexadecimal digit for n < 16 (lower case letters). -/
def hexChar (n : Nat) : Char :=
  if n < 10 then Char.ofNat (48 + n) else Char.ofNat (87 + n)

/-- Value of a hexadecimal digit character. -/
def hexDigitVal (c : Char) : Option Nat :=
  if isDigitChar c then some (c.toNat - 48)
  else if 97 ≤ c.toNat ∧ c.toNat ≤ 102 then some (c.toNat - 87)
  else if 65 ≤ c.toNat ∧ c.toNat ≤ 70 then some (c.toNat - 55)
  else none

/-- Decimal rendering of a natural number, most significant digit first,
prepended to acc.  Structurally recursive on a fuel argument (any fuel
of at least n produces the digits of n). -/
def natCharsAux : Nat → Nat → List Char → List Char
  | 0, n, acc => Char.ofNat (48 + n % 10) :: acc
  | fuel + 1, n, acc =>
      if n < 10 then Char.ofNat (48 + n % 10) :: acc
      else natCharsAux fuel (n / 10) (Char.ofNat (48 + n % 10) :: acc)

/-- Decimal rendering of a natural number. -/
def natChars (n : Nat) : List Char := natCharsAux n n []

/-- Rendering of an integer, as json.dumps writes it. -/
def intChars (i : Int) : List Char :=
  if i < 0 then '-' :: natChars i.natAbs else natChars i.natAbs

/-- JSON string escaping of one character: quote and backslash escaped,
control characters as a four-digit unicode escape, everything else
verbatim. -/
def escChar (c : Char) : List Char :=
  if c = '"' then ['\\', '"']
  else if c = '\\' then ['\\', '\\']
  else if c.toNat < 32 then
    ['\\', 'u', '0', '0', hexChar (c.toNat / 16), hexChar (c.toNat % 16)]
  else [c]

/-- JSON string escaping of a character list. -/
def escStr : List Char → List Char
  | [] => []
  | c :: cs => escChar c ++ escStr cs

/-- A JSON string literal: quote, escaped body, quote. -/
def strLit (s : String) : List Char := '"' :: (escStr s.data ++ ['"'])

mutual

/-- Serialization of a Py value, mirroring json.dumps with its default
", " and ": " separators. -/
def dumpsChars : Py → List Char
  | .null => ['n', 'u', 'l', 'l']
  | .bool b => if b then ['t', 'r', 'u', 'e'] else ['f', 'a', 'l', 's', 'e']
  | .int i => intChars i
  | .str s => strLit s
  | .list [] => ['[', ']']
  | .list (v :: vs) => '[' :: (dumpsChars v ++ dumpsListRest vs ++ [']'])
  | .dict [] => [lbraceC, rbraceC]
  | .dict ((k, v) :: kvs) =>
      lbraceC :: (strLit k ++ ':' :: ' ' :: dumpsChars v ++ dumpsMembersRest kvs ++ [rbraceC])

/-- Serialization of the elements of a list after the first one. -/
def dumpsListRest : List Py → List Char
  | [] => []
  | v :: vs => ',' :: ' ' :: (dumpsChars v ++ dumpsListRest vs)

/-- Serialization of the members of an object after the first one. -/
def dumpsMembersRest : List (String × Py) → List Char
  | [] => []
  | (k, v) :: kvs => ',' :: ' ' :: (strLit k ++ ':' :: ' ' :: dumpsChars v ++ dumpsMembersRest kvs)

end

/-- Model of json.dumps. -/
def pyDumps (v : Py) : String := String.mk (dumpsChars v)

/-- Skip JSON whitespace. -/
def skipWs : List Char → List Char
  | [] => []
  | c :: cs => if isWsChar c then skipWs cs else c :: cs

/-- Read a maximal run of decimal digits, accumulating their value. -/
def readDigits : List Char → Nat → Nat × List Char
  | [], acc => (acc, [])
  | c :: cs, acc =>
      if isDigitChar c then readDigits cs (10 * acc + dval c) else (acc, c :: cs)

/-- Short escapes accepted after a backslash in a JSON string. -/
def unescChar (c : Char) : Option Char :=
  if c = '"' then some '"'
  else if c = '\\' then some '\\'
  else if c = '/' then some '/'
  else if c = 'b' then some (Char.ofNat 8)
  else if c = 'f' then some (Char.ofNat 12)
  else if c = 'n' then some '\n'
  else if c = 'r' then some '\r'
  else if c = 't' then some '\t'
  else none

/-- Parse the body of a JSON string up to the closing quote, resolving
escapes; returns the decoded characters and the input after the quote. -/
def parseStrBody : List Char → Option (List Char × List Char)
  | [] => none
  | c :: cs =>
      if c = '"' then some ([], cs)
      else if c = '\\' then
        match cs with
        | [] => none
        | e :: cs2 =>
            if e = 'u' then
              match cs2 with
              | h1 :: h2 :: h3 :: h4 :: cs3 =>
                  match hexDigitVal h1, hexDigitVal h2, hexDigitVal h3, hexDigitVal h4 with
                  | some a, some b, some d, some e4 =>
                      match parseStrBody cs3 with
                      | some (body, rest) =>
                          some (Char.ofNat (((a * 16 + b) * 16 + d) * 16 + e4) :: body, rest)
                      | none => none
                  | _, _, _, _ => none
              | _ => none
            else
              match unescChar e with
              | some c2 =>
                  match parseStrBody cs2 with
                  | some (body, rest) => some (c2 :: body, rest)
                  | none => none
              | none => none
      else
        match parseStrBody cs with
        | some (body, rest) => some (c :: body, rest)
        | none => none

mutual

/-- Fuel-indexed recursive-descent JSON parser: one value. -/
def parseVal : Nat → List Char → Option (Py × List Char)
  | 0, _ => none
  | fuel + 1, cs =>
    match skipWs cs with
    | [] => none
    | c :: cs1 =>
      if c = '"' then
        match parseStrBody cs1 with
        | some (body, rest) => some (.str (String.mk body), rest)
        | none => none
      else if c = '[' then
        match skipWs cs1 with
        | [] => none
        | c2 :: rest =>
            if c2 = ']' then some (.list [], rest)
            else
              match parseElems fuel (c2 :: rest) with
              | some (vs, r) => some (.list vs, r)
              | none => none
      else if c = lbraceC then
        match skipWs cs1 with
        | [] => none
        | c2 :: rest =>
            if c2 = rbraceC then some (.dict [], rest)
            else
              match parseMembers fuel (c2 :: rest) with
              | some (ms, r) => some (.dict ms, r)
              | none => none
      else if c = 't' then
        match cs1 with
        | 'r' :: 'u' :: 'e' :: rest => some (.bool true, rest)
        | _ => none
      else if c = 'f' then
        match cs1 with
        | 'a' :: 'l' :: 's' :: 'e' :: rest => some (.bool false, rest)
        | _ => none
      else if c = 'n' then
        match cs1 with
        | 'u' :: 'l' :: 'l' :: rest => some (.null, rest)
        | _ => none
      else if c = '-' then
        match cs1 with
        | [] => none
        | d :: ds =>
            if isDigitChar d then
              some (.int (-((readDigits (d :: ds) 0).1 : Int)), (readDigits (d :: ds) 0).2)
            else none
      else if isDigitChar c then
        some (.int ((readDigits (c :: cs1) 0).1 : Int), (readDigits (c :: cs1) 0).2)
      else none

/-- Parse the elements of a non-empty JSON array, including the closing
bracket. -/
def parseElems : Nat → List Char → Option (List Py × List Char)
  | 0, _ => none
  | fuel + 1, cs =>
    match parseVal fuel cs with
    | none => none
    | some (v, r) =>
      match skipWs r with
      | [] => none
      | c :: r2 =>
        if c = ']' then some ([v], r2)
        else if c = ',' then
          match parseElems fuel r2 with
          | some (vs, r3) => some (v :: vs, r3)
          | none => none
        else none

/-- Parse the members of a non-empty JSON object, including the closing
brace. -/
def parseMembers : Nat → List Char → Option (List (String × Py) × List Char)
  | 0, _ => none
  | fuel + 1, cs =>
    match skipWs cs with
    | [] => none
    | c :: cs1 =>
      if c = '"' then
        match parseStrBody cs1 with
        | none => none
        | some (key, r1) =>
          match skipWs r1 with
          | [] => none
          | c2 :: r2 =>
            if c2 = ':' then
              match parseVal fuel r2 with
              | none => none
              | some (v, r3) =>
                match skipWs r3 with
                | [] => none
                | c3 :: r4 =>
                  if c3 = rbraceC then some ([(String.mk key, v)], r4)
                  else if c3 = ',' then
                    match parseMembers fuel r4 with
                    | some (ms, r5) => some ((String.mk key, v) :: ms, r5)
                    | none => none
                  else none
            else none
      else none

end

/-- Model of json.loads: parse one value, allow trailing whitespace only. -/
def pyLoads (s : String) : Option Py :=
  match parseVal (s.data.length + 1) s.data with
  | some (v, rest) =>
      match skipWs rest with
      | [] => some v
      | _ => none
  | none => none

/-- Python truthiness of a JSON-shaped value. -/
def pyTruthy : Py → Bool
  | .null => false
  | .bool b => b
  | .int n => decide (n ≠ 0)
  | .str s => decide (s ≠ "")
  | .list xs => !xs.isEmpty
  | .dict d => !d.isEmpty

/-- The literal object text that __post_init__ decodes when a field is
falsy (the right operand of the `or`). -/
def emptyObjStr : String := "\x7b\x7d"

/-- First-match association-list lookup, modelling Python dict lookup
(dicts produced by the parser have distinct keys). -/
def assocGet : List (String × Py) → String → Option Py
  | [], _ => none
  | (k, v) :: t, key => if k = key then some v else assocGet t key

/-- Python dict/attribute insertion: update in place if the key exists,
keeping its position, else append. -/
def dictInsert : List (String × Py) → String → Py → List (String × Py)
  | [], k, v => [(k, v)]
  | (k1, v1) :: t, k, v =>
      if k1 = k then (k, v) :: t else (k1, v1) :: dictInsert t k v

/-- Declared shape of an entity subclass: the dataclass field names, the
JSON_FIELDS subset, and the dataclass defaults (json_field() defaults to
None, default_string() to ""; fields not listed in defaults are modelled
as defaulting to None). -/
structure EntityType where
  fieldNames : List String
  jsonFields : List String
  defaults : List (String × Py)
deriving Repr

/-- Default value of a declared field. -/
def EntityType.defaultOf (et : EntityType) (n : String) : Py :=
  (assocGet et.defaults n).getD Py.null

/-- A collection (an ObjectFactories instance): the entity type it
produces and the entity class name used in NotFound messages.  The HTTP
transport is an external collaborator; responses are passed to the
operations explicitly. -/
structure Factory where
  objectName : String
  et : EntityType
deriving Repr

/-- An entity instance: its dataclass fields in declaration order, plus
the _parent back-reference (a class attribute, not a dataclass field). -/
structure Obj where
  fields : List (String × Py)
  parent : Option Factory
deriving Repr

/-- getattr on an instance attribute. -/
def Obj.getAttr (o : Obj) (f : String) : Option Py := assocGet o.fields f

/-- setattr on an instance attribute. -/
def Obj.setAttr (o : Obj) (f : String) (v : Py) : Obj :=
  { o with fields := dictInsert o.fields f v }

/-- Dataclass construction cls(**kwargs): every keyword must name a
declared field, and each declared field takes the keyword value or its
default. -/
def Object.dataclassInit (et : EntityType) (kwargs : List (String × Py)) : Option Obj :=
  if kwargs.all (fun kv => decide (kv.1 ∈ et.fieldNames)) then
    some { fields := et.fieldNames.map (fun n => (n, (assocGet kwargs n).getD (et.defaultOf n))),
           parent := none }
  else none

/-- One step of __post_init__ on one declared JSON field: the expression
json.loads(getattr(self, f) or "{}").  none models a raised exception
(AttributeError, TypeError on a non-string truthy value, or ValueError
on invalid JSON text). -/
def decodeStep : Option Py → Option Py
  | none => none
  | some v =>
      if pyTruthy v then
        match v with
        | .str s => pyLoads s
        | _ => none
      else pyLoads emptyObjStr

/-- __post_init__ body: setattr(self, f, json.loads(getattr(self, f) or
"{}")) for every f in JSON_FIELDS. -/
def Object.postInitAux : List String → Obj → Option Obj
  | [], o => some o
  | f :: fs, o =>
      match decodeStep (o.getAttr f) with
      | some w => Object.postInitAux fs (o.setAttr f w)
      | none => none

/-- Object.__post_init__. -/
def Object.post_init (et : EntityType) (o : Obj) : Option Obj :=
  Object.postInitAux et.jsonFields o

/-- Direct construction of an unsaved instance: dataclass __init__
followed by __post_init__. -/
def Object.construct (et : EntityType) (kwargs : List (String × Py)) : Option Obj :=
  match Object.dataclassInit et kwargs with
  | some o => Object.post_init et o
  | none => none

/-- Object.from_json: whitelist-filter the payload to the declared field
names, then construct. -/
def Object.from_json (et : EntityType) (payload : List (String × Py)) : Option Obj :=
  Object.construct et (payload.filter (fun kv => decide (kv.1 ∈ et.fieldNames)))

/-- Object.to_json: project the instance onto the requested columns,
re-encoding JSON_FIELDS with json.dumps; columns not present on the
instance are skipped (the hasattr check, modelled as presence among the
instance attributes). -/
def Object.to_json (et : EntityType) (o : Obj) (columns : List String) : List (String × Py) :=
  columns.foldl
    (fun acc c =>
      match o.getAttr c with
      | none => acc
      | some v => dictInsert acc c (if c ∈ et.jsonFields then Py.str (pyDumps v) else v))
    []

/-- The value to_json writes for a column when the attribute exists:
json.dumps for JSON_FIELDS, the raw value otherwise. -/
def encCol (et : EntityType) (o : Obj) (c : String) : Option Py :=
  (o.getAttr c).map (fun v => if c ∈ et.jsonFields then Py.str (pyDumps v) else v)

/-- An HTTP response as observed by this layer. -/
structure Response where
  status : Nat
  body : String
  contentType : String
  content : List Nat
deriving Repr

/-- Outcome of raise_for_status: no exception, the re-raised transport
HTTPError, or one of the two typed translations. -/
inductive RaiseResult where
  | ok
  | httpError
  | badRequest (message : Py)
  | complexBadRequest (errors : Py)
deriving Repr

/-- The expression response.json()[k] with every exception collapsed to
none (unparsable body, non-dict body, missing key). -/
def jsonKey (body : String) (k : String) : Option Py :=
  match pyLoads body with
  | some (.dict d) => assocGet d k
  | _ => none

/-- raise_for_status: the transport check raises for 4xx/5xx statuses;
on failure the message key is tried first, then the errors key, then the
original error is re-raised. -/
def raise_for_status (resp : Response) : RaiseResult :=
  if 400 ≤ resp.status ∧ resp.status < 600 then
    match jsonKey resp.body "message" with
    | some m => .badRequest m
    | none =>
        match jsonKey resp.body "errors" with
        | some es => .complexBadRequest es
        | none => .httpError
  else .ok

/-- Exceptions surfaced by the collection operations. -/
inductive FacErr where
  | raised (r : RaiseResult)
  | jsonDecodeErr
  | attributeErr
  | typeErr
  | constructionErr
  | yamlErr
  | notFound (msg : String)
deriving Repr

/-- The structured query built by ObjectFactories.find: page size, page
index, and one equality filter per keyword argument, with the operator
string "eq". -/
def ObjectFactories.findQuery (pageSize page : Int) (kwargs : List (String × Py)) : Py :=
  .dict [("page_size", .int pageSize), ("page", .int page),
         ("filters", .list (kwargs.map (fun kv =>
            .dict [("col", .str kv.1), ("opr", .str "eq"), ("value", kv.2)])))]

/-- The query parameters sent by find: a single q parameter holding the
JSON-encoded query. -/
def ObjectFactories.findParams (pageSize page : Int) (kwargs : List (String × Py)) :
    List (String × String) :=
  [("q", pyDumps (ObjectFactories.findQuery pageSize page kwargs))]

/-- Construction of find's result list: from_json on each element of the
result array, binding each entity's parent to the collection. -/
def ObjectFactories.buildResults (fac : Factory) : List Py → Option (List Obj)
  | [] => some []
  | r :: rs =>
      match r with
      | .dict d =>
          match Object.from_json fac.et d with
          | some o =>
              match ObjectFactories.buildResults fac rs with
              | some os => some ({ o with parent := some fac } :: os)
              | none => none
          | none => none
      | _ => none

/-- Response side of ObjectFactories.find: status check, then the result
array of the JSON envelope is materialized into parent-bound entities. -/
def ObjectFactories.findParse (fac : Factory) (resp : Response) : Except FacErr (List Obj) :=
  match raise_for_status resp with
  | .ok =>
      match pyLoads resp.body with
      | some (.dict d) =>
          match assocGet d "result" with
          | some (.list rs) =>
              match ObjectFactories.buildResults fac rs with
              | some os => .ok os
              | none => .error .constructionErr
          | some _ => .error .typeErr
          | none => .error .typeErr
      | some _ => .error .attributeErr
      | none => .error .jsonDecodeErr
  | r => .error (.raised r)

/-- ObjectFactories.find_one: the first element of find's result, or
NotFound naming the entity class when the result list is empty. -/
def ObjectFactories.find_one (fac : Factory) (resp : Response) : Except FacErr Obj :=
  match ObjectFactories.findParse fac resp with
  | .ok objs =>
      match objs with
      | [] => .error (.notFound ("No " ++ fac.objectName ++ " has been found."))
      | o :: _ => .ok o
  | .error e => .error e

/-- ObjectFactories.add, given the server response to the POST: returns
the request body that was POSTed (the add_columns projection), the
mutated entity (id set from the response, parent bound), and the value
returned to the caller (obj.id). -/
def ObjectFactories.add (fac : Factory) (addColumns : List String) (o : Obj) (resp : Response) :
    Except FacErr (List (String × Py) × Obj × Py) :=
  let body := Object.to_json fac.et o addColumns
  match raise_for_status resp with
  | .ok =>
      match pyLoads resp.body with
      | some (.dict d) =>
          let i := (assocGet d "id").getD Py.null
          .ok (body, { o with fields := dictInsert o.fields "id" i, parent := some fac }, i)
      | some _ => .error .attributeErr
      | none => .error .jsonDecodeErr
  | r => .error (.raised r)

/-- The Python comparison response.json().get('message') == 'OK': true
exactly for a string value equal to "OK", false for any other value and
for a missing key. -/
def isOkMessage (d : List (String × Py)) : Bool :=
  match assocGet d "message" with
  | some (.str s) => s == "OK"
  | _ => false

/-- ObjectFactories.delete, given the server response to the DELETE. -/
def ObjectFactories.delete (resp : Response) : Except FacErr Bool :=
  match raise_for_status resp with
  | .ok =>
      match pyLoads resp.body with
      | some (.dict d) => .ok (isOkMessage d)
      | some _ => .error .attributeErr
      | none => .error .jsonDecodeErr
  | r => .error (.raised r)

/-- Python str.strip() whitespace. -/
def isPyWs (c : Char) : Bool :=
  c = ' ' || c = '\t' || c = '\n' || c = '\r' || c = Char.ofNat 11 || c = Char.ofNat 12

/-- Python str.strip(). -/
def pyStrip (s : String) : String :=
  String.mk (((s.data.dropWhile isPyWs).reverse.dropWhile isPyWs).reverse)

/-- Python str.startswith. -/
def pyStartsWith (s pre : String) : Bool := pre.data.isPrefixOf s.data

/-- Model of yaml.load with FullLoader, on the JSON-compatible fragment
of YAML exercised by the properties proved here; a yaml parse failure is
none. -/
def yamlLoad (s : String) : Option Py := pyLoads s

/-- One write performed on the destination path, tagged with the
serializer the source used for it. -/
inductive WriteEvent where
  | yamlW (path : String) (data : Py)
  | bytesW (path : String) (content : List Nat)
  | jsonW (path : String) (data : Py)
deriving Repr

/-- The value of the local variable data when export returns. -/
inductive ExportData where
  | yamlD (d : Py)
  | bytesD (b : List Nat)
  | jsonD (d : Py)
deriving Repr

/-- ObjectFactories.export (export is a Lean keyword, hence the prime),
given the server response: the sequence of writes to the destination
path and the returned data.  The source's second content-type check is
an if/else that runs after the first if, not an elif chain; the source's
two sequential ifs are flattened here into nested ifs with identical
semantics. -/
def ObjectFactories.export' (path : String) (resp : Response) :
    Except FacErr (List WriteEvent × ExportData) :=
  match raise_for_status resp with
  | .ok =>
      let ct := pyStrip resp.contentType
      if pyStartsWith ct "application/text" then
        match yamlLoad resp.body with
        | none => .error .yamlErr
        | some d =>
            if pyStartsWith ct "application/zip" then
              .ok ([.yamlW path d, .bytesW path resp.content], .bytesD resp.content)
            else
              match pyLoads resp.body with
              | some d2 => .ok ([.yamlW path d, .jsonW path d2], .jsonD d2)
              | none => .error .jsonDecodeErr
      else
        if pyStartsWith ct "application/zip" then
          .ok ([.bytesW path resp.content], .bytesD resp.content)
        else
          match pyLoads resp.body with
          | some d2 => .ok ([.jsonW path d2], .jsonD d2)
          | none => .error .jsonDecodeErr
  | r => .error (.raised r)

/-- A concrete entity type used by witnesses: two plain fields. -/
def etPlain : EntityType :=
  { fieldNames := ["id", "name"], jsonFields := [],
    defaults := [("id", Py.null), ("name", Py.str "")] }

/-- A concrete collection used by witnesses. -/
def facDash : Factory := { objectName := "Dashboard", et := etPlain }

/-- A concrete entity type with one JSON field, used by witnesses. -/
def etJson : EntityType :=
  { fieldNames := ["params"], jsonFields := ["params"], defaults := [("params", Py.null)] }

/-- A concrete entity type with plain and JSON fields, used by witnesses. -/
def etMixed : EntityType :=
  { fieldNames := ["id", "name", "params"], jsonFields := ["params"],
    defaults := [("id", Py.null), ("name", Py.str ""), ("params", Py.null)] }

/-- Head constraint on the input that may legally follow a serialized
value: a maximal-munch number must not be continued by the remainder. -/
def boundaryOk : List Char → Bool
  | [] => true
  | c :: _ => !isDigitChar c

/-- Fuel measure for the parser: sufficient fuel for parseVal on a
serialized value. -/
def pyFuel : Py → Nat
  | .null => 1
  | .bool _ => 1
  | .int _ => 1
  | .str _ => 1
  | .list [] => 1
  | .list (v :: vs) => 1 + pyFuel v + pyFuel (.list vs)
  | .dict [] => 1
  | .dict ((_, v) :: kvs) => 1 + pyFuel v + pyFuel (.dict kvs)

/-- Fuel needed by parseElems after the first element of a list. -/
def listRestFuel : List Py → Nat
  | [] => 0
  | v :: vs => 1 + pyFuel v + listRestFuel vs

/-- Fuel needed by parseMembers after the first member of an object. -/
def membersRestFuel : List (String × Py) → Nat
  | [] => 0
  | (_, v) :: kvs => 1 + pyFuel v + membersRestFuel kvs

/-! ### Character and digit lemmas -/

theorem toNat_ofNat_valid (m : Nat) (h : m < 55296) : (Char.ofNat m).toNat = m := by
  have hv : m.isValidChar := Or.inl h
  rw [Char.ofNat, dif_pos hv]
  rfl

theorem isDigitChar_toNat {c : Char} (h : isDigitChar c = true) :
    48 ≤ c.toNat ∧ c.toNat ≤ 57 := by
  simpa [isDigitChar] using h

theorem isDigitChar_digit (n : Nat) : isDigitChar (Char.ofNat (48 + n % 10)) = true := by
  have h10 : n % 10 < 10 := Nat.mod_lt _ (by omega)
  have ht := toNat_ofNat_valid (48 + n % 10) (by omega)
  simp only [isDigitChar, ht, Bool.and_eq_true, decide_eq_true_eq]
  omega

theorem dval_digit (n : Nat) : dval (Char.ofNat (48 + n % 10)) = n % 10 := by
  have h10 : n % 10 < 10 := Nat.mod_lt _ (by omega)
  have ht := toNat_ofNat_valid (48 + n % 10) (by omega)
  simp only [dval, ht]
  omega

theorem digit_not_ws {c : Char} (h : isDigitChar c = true) : isWsChar c = false := by
  have hb := isDigitChar_toNat h
  simp only [isWsChar, Bool.or_eq_false_iff, decide_eq_false_iff_not]
  omega

theorem skipWs_cons_ws {c : Char} (h : isWsChar c = true) (cs : List Char) :
    skipWs (c :: cs) = skipWs cs := by
  simp [skipWs, h]

theorem skipWs_cons_not_ws {c : Char} (h : isWsChar c = false) (cs : List Char) :
    skipWs (c :: cs) = c :: cs := by
  simp [skipWs, h]

theorem hexRound : ∀ k < 16, hexDigitVal (hexChar k) = some k := by decide

/-! ### Decimal rendering round trip -/

theorem natCharsAux_all_digits : ∀ fuel n acc,
    (∀ c ∈ acc, isDigitChar c = true) →
    ∀ c ∈ natCharsAux fuel n acc, isDigitChar c = true := by
  intro fuel
  induction fuel with
  | zero =>
    intro n acc hacc c hc
    simp only [natCharsAux, List.mem_cons] at hc
    rcases hc with rfl | hc
    · exact isDigitChar_digit n
    · exact hacc c hc
  | succ fuel ih =>
    intro n acc hacc c hc
    simp only [natCharsAux] at hc
    by_cases h10 : n < 10
    · rw [if_pos h10] at hc
      rcases List.mem_cons.mp hc with rfl | hc
      · exact isDigitChar_digit n
      · exact hacc c hc
    · rw [if_neg h10] at hc
      refine ih (n / 10) _ ?_ c hc
      intro x hx
      rcases List.mem_cons.mp hx with rfl | hx
      · exact isDigitChar_digit n
      · exact hacc x hx

theorem natCharsAux_ne_nil : ∀ fuel n acc, natCharsAux fuel n acc ≠ [] := by
  intro fuel
  induction fuel with
  | zero => intro n acc; simp [natCharsAux]
  | succ fuel ih =>
    intro n acc
    simp only [natCharsAux]
    by_cases h10 : n < 10
    · rw [if_pos h10]; simp
    · rw [if_neg h10]; exact ih _ _

theorem natCharsAux_foldl : ∀ fuel n acc, n ≤ fuel →
    (natCharsAux fuel n acc).foldl (fun a c => 10 * a + dval c) 0 =
      acc.foldl (fun a c => 10 * a + dval c) n := by
  intro fuel
  induction fuel with
  | zero =>
    intro n acc hn
    have hn0 : n = 0 := by omega
    subst hn0
    have h0 : dval (Char.ofNat 48) = 0 := by decide
    simp [natCharsAux, h0]
  | succ fuel ih =>
    intro n acc hn
    simp only [natCharsAux]
    by_cases h10 : n < 10
    · rw [if_pos h10]
      simp only [List.foldl_cons, dval_digit]
      have : 10 * 0 + n % 10 = n := by omega
      rw [this]
    · rw [if_neg h10]
      have hd : n / 10 ≤ fuel := by
        have hlt : n / 10 < n := Nat.div_lt_self (by omega) (by omega)
        omega
      rw [ih (n / 10) _ hd]
      simp only [List.foldl_cons, dval_digit]
      have : 10 * (n / 10) + n % 10 = n := Nat.div_add_mod n 10
      rw [this]

theorem natChars_foldl (n : Nat) :
    (natChars n).foldl (fun a c => 10 * a + dval c) 0 = n := by
  rw [natChars, natCharsAux_foldl n n [] le_rfl]
  rfl

theorem natChars_all_digits (n : Nat) : ∀ c ∈ natChars n, isDigitChar c = true :=
  natCharsAux_all_digits n n [] (by intro c hc; cases hc)

theorem natChars_ne_nil (n : Nat) : natChars n ≠ [] := natCharsAux_ne_nil n n []

theorem readDigits_append : ∀ ds rest acc, (∀ c ∈ ds, isDigitChar c = true) →
    boundaryOk rest = true →
    readDigits (ds ++ rest) acc = (ds.foldl (fun a c => 10 * a + dval c) acc, rest) := by
  intro ds
  induction ds with
  | nil =>
    intro rest acc _ hrest
    cases rest with
    | nil => rfl
    | cons c t =>
      simp only [boundaryOk, Bool.not_eq_true'] at hrest
      simp [readDigits, hrest]
  | cons d ds ih =>
    intro rest acc hds hrest
    have hd : isDigitChar d = true := hds d (List.mem_cons_self _ _)
    simp only [List.cons_append, readDigits, hd, if_true, List.foldl_cons]
    exact ih rest _ (fun c hc => hds c (List.mem_cons_of_mem _ hc)) hrest

/-! ### String escaping round trip -/

theorem parseStrBody_escStr : ∀ cs rest, parseStrBody (escStr cs ++ '"' :: rest) = some (cs, rest) := by
  intro cs
  induction cs with
  | nil =>
    intro rest
    rw [escStr, List.nil_append, parseStrBody.eq_def]
    simp
  | cons c cs ih =>
    intro rest
    simp only [escStr, escChar, List.append_assoc]
    by_cases hq : c = '"'
    · subst hq
      rw [if_pos rfl]
      simp only [List.cons_append, List.nil_append]
      rw [parseStrBody.eq_def]
      simp [unescChar, ih]
    · rw [if_neg hq]
      by_cases hb : c = '\\'
      · subst hb
        rw [if_pos rfl]
        simp only [List.cons_append, List.nil_append]
        rw [parseStrBody.eq_def]
        simp [unescChar, ih]
      · rw [if_neg hb]
        by_cases hc : c.toNat < 32
        · rw [if_pos hc]
          have h1 : hexDigitVal '0' = some 0 := by decide
          have h2 : hexDigitVal (hexChar (c.toNat / 16)) = some (c.toNat / 16) :=
            hexRound _ (by omega)
          have h3 : hexDigitVal (hexChar (c.toNat % 16)) = some (c.toNat % 16) :=
            hexRound _ (by omega)
          have hcode1 : ((0 * 16 + 0) * 16 + c.toNat / 16) * 16 + c.toNat % 16 = c.toNat := by
            omega
          have hcode2 : c.toNat / 16 * 16 + c.toNat % 16 = c.toNat := by omega
          simp only [List.cons_append, List.nil_append]
          rw [parseStrBody.eq_def]
          simp [h1, h2, h3, hcode1, hcode2, Char.ofNat_toNat, ih]
        · rw [if_neg hc]
          simp only [List.cons_append, List.nil_append]
          rw [parseStrBody.eq_def]
          simp [hq, hb, ih]

/-! ### Fuel lemmas -/

theorem pyFuel_pos (v : Py) : 1 ≤ pyFuel v := by
  cases v with
  | list vs => cases vs <;> simp [pyFuel] <;> omega
  | dict kvs =>
    cases kvs with
    | nil => simp [pyFuel]
    | cons kv kvs =>
      obtain ⟨k, v⟩ := kv
      simp [pyFuel]
      omega
  | _ => simp [pyFuel]

theorem listRestFuel_lt (vs : List Py) : listRestFuel vs < pyFuel (.list vs) := by
  induction vs with
  | nil => simp [listRestFuel, pyFuel]
  | cons v vs ih =>
    simp only [listRestFuel, pyFuel]
    omega

theorem membersRestFuel_lt (kvs : List (String × Py)) :
    membersRestFuel kvs < pyFuel (.dict kvs) := by
  induction kvs with
  | nil => simp [membersRestFuel, pyFuel]
  | cons kv kvs ih =>
    obtain ⟨k, v⟩ := kv
    simp only [membersRestFuel, pyFuel]
    omega

theorem digit_ne {c : Char} (hd : isDigitChar c = true) (d : Char)
    (hne : isDigitChar d = false) : c ≠ d := by
  intro h
  subst h
  rw [hd] at hne
  cases hne

/-- The first character of any serialized value: never whitespace, never
a list/object closer, never a comma. -/
theorem dumpsChars_head (v : Py) : ∃ c t, dumpsChars v = c :: t ∧ isWsChar c = false ∧
    c ≠ ']' ∧ c ≠ rbraceC ∧ c ≠ ',' := by
  cases v with
  | null => exact ⟨'n', _, rfl, by decide, by decide, by decide, by decide⟩
  | bool b => cases b with
    | true => exact ⟨'t', _, rfl, by decide, by decide, by decide, by decide⟩
    | false => exact ⟨'f', _, rfl, by decide, by decide, by decide, by decide⟩
  | int i =>
    by_cases hneg : i < 0
    · refine ⟨'-', natChars i.natAbs, ?_, by decide, by decide, by decide, by decide⟩
      simp [dumpsChars, intChars, hneg]
    · obtain ⟨c, t, hct⟩ : ∃ c t, natChars i.natAbs = c :: t := by
        cases h : natChars i.natAbs with
        | nil => exact absurd h (natChars_ne_nil _)
        | cons c t => exact ⟨c, t, rfl⟩
      have hd : isDigitChar c = true :=
        natChars_all_digits i.natAbs c (hct ▸ List.mem_cons_self _ _)
      refine ⟨c, t, ?_, digit_not_ws hd, digit_ne hd _ (by decide),
        digit_ne hd _ (by decide), digit_ne hd _ (by decide)⟩
      simp [dumpsChars, intChars, hneg, hct]
  | str s => exact ⟨'"', _, rfl, by decide, by decide, by decide, by decide⟩
  | list vs => cases vs with
    | nil => exact ⟨'[', _, rfl, by decide, by decide, by decide, by decide⟩
    | cons v vs => exact ⟨'[', _, rfl, by decide, by decide, by decide, by decide⟩
  | dict kvs => cases kvs with
    | nil => exact ⟨lbraceC, _, rfl, by decide, by decide, by decide, by decide⟩
    | cons kv kvs =>
      obtain ⟨k, v⟩ := kv
      exact ⟨lbraceC, _, rfl, by decide, by decide, by decide, by decide⟩

/-- parseVal on a rendered natural number followed by a non-digit. -/
theorem parseVal_natChars (fuel : Nat) (n : Nat) (rest : List Char)
    (hrest : boundaryOk rest = true) :
    parseVal (fuel + 1) (natChars n ++ rest) = some (.int (n : Int), rest) := by
  obtain ⟨c, t, hct⟩ : ∃ c t, natChars n = c :: t := by
    cases h : natChars n with
    | nil => exact absurd h (natChars_ne_nil n)
    | cons c t => exact ⟨c, t, rfl⟩
  have hd : isDigitChar c = true :=
    natChars_all_digits n c (hct ▸ List.mem_cons_self _ _)
  have hrd : readDigits (natChars n ++ rest) 0 = (n, rest) := by
    rw [readDigits_append (natChars n) rest 0 (natChars_all_digits n) hrest, natChars_foldl]
  rw [hct] at hrd ⊢
  rw [List.cons_append, parseVal.eq_2]
  rw [skipWs_cons_not_ws (digit_not_ws hd)]
  dsimp only
  rw [if_neg (digit_ne hd '"' (by decide)), if_neg (digit_ne hd '[' (by decide)),
    if_neg (digit_ne hd lbraceC (by decide)), if_neg (digit_ne hd 't' (by decide)),
    if_neg (digit_ne hd 'f' (by decide)), if_neg (digit_ne hd 'n' (by decide)),
    if_neg (digit_ne hd '-' (by decide)), if_pos hd]
  rw [← List.cons_append, hrd]

/-- parseVal ignores a leading space. -/
theorem parseVal_cons_space (fuel : Nat) (cs : List Char) :
    parseVal fuel (' ' :: cs) = parseVal fuel cs := by
  cases fuel with
  | zero => rfl
  | succ fuel =>
    rw [parseVal.eq_2, parseVal.eq_2]
    rw [skipWs_cons_ws (by decide)]

/-- parseElems ignores a leading space. -/
theorem parseElems_cons_space (fuel : Nat) (cs : List Char) :
    parseElems fuel (' ' :: cs) = parseElems fuel cs := by
  cases fuel with
  | zero => rfl
  | succ fuel =>
    rw [parseElems.eq_2, parseElems.eq_2]
    rw [parseVal_cons_space]

/-- parseMembers ignores a leading space. -/
theorem parseMembers_cons_space (fuel : Nat) (cs : List Char) :
    parseMembers fuel (' ' :: cs) = parseMembers fuel cs := by
  cases fuel with
  | zero => rfl
  | succ fuel =>
    rw [parseMembers.eq_2, parseMembers.eq_2]
    rw [skipWs_cons_ws (by decide)]

set_option maxHeartbeats 1000000

/-- Round trip of the serializer through the parser, stated for the three
mutually recursive parser entry points and proved by strong induction on
the fuel. -/
theorem parse_dumps_master : ∀ fuel,
    (∀ v rest, pyFuel v ≤ fuel → boundaryOk rest = true →
        parseVal fuel (dumpsChars v ++ rest) = some (v, rest)) ∧
    (∀ v vs rest, 1 + pyFuel v + listRestFuel vs ≤ fuel →
        parseElems fuel (dumpsChars v ++ (dumpsListRest vs ++ (']' :: rest))) =
          some (v :: vs, rest)) ∧
    (∀ k v kvs rest, 1 + pyFuel v + membersRestFuel kvs ≤ fuel →
        parseMembers fuel
            (strLit k ++ (':' :: ' ' :: (dumpsChars v ++ (dumpsMembersRest kvs ++ (rbraceC :: rest))))) =
          some ((k, v) :: kvs, rest)) := by
  intro fuel
  induction fuel using Nat.strong_induction_on with
  | _ fuel ih =>
  refine ⟨?_, ?_, ?_⟩
  · -- parseVal on a serialized value
    intro v rest hfuel hrest
    have h1 : 1 ≤ pyFuel v := pyFuel_pos v
    cases fuel with
    | zero => omega
    | succ f =>
      cases v with
      | null =>
        simp only [dumpsChars, List.cons_append, List.nil_append]
        rw [parseVal.eq_2, skipWs_cons_not_ws (by decide)]
        dsimp only
        rw [if_neg (by decide), if_neg (by decide), if_neg (by decide), if_neg (by decide),
          if_neg (by decide), if_pos rfl]
        simp
      | bool b =>
        cases b with
        | true =>
          rw [show dumpsChars (Py.bool true) = ['t', 'r', 'u', 'e'] from rfl]
          simp only [List.cons_append, List.nil_append]
          rw [parseVal.eq_2, skipWs_cons_not_ws (by decide)]
          dsimp only
          rw [if_neg (by decide), if_neg (by decide), if_neg (by decide), if_pos rfl]
          simp
        | false =>
          rw [show dumpsChars (Py.bool false) = ['f', 'a', 'l', 's', 'e'] from rfl]
          simp only [List.cons_append, List.nil_append]
          rw [parseVal.eq_2, skipWs_cons_not_ws (by decide)]
          dsimp only
          rw [if_neg (by decide), if_neg (by decide), if_neg (by decide), if_neg (by decide),
            if_pos rfl]
          simp
      | int i =>
        by_cases hneg : i < 0
        · have hdm : dumpsChars (.int i) = '-' :: natChars i.natAbs := by
            simp [dumpsChars, intChars, hneg]
          rw [hdm, List.cons_append, parseVal.eq_2, skipWs_cons_not_ws (by decide)]
          dsimp only
          rw [if_neg (by decide), if_neg (by decide), if_neg (by decide), if_neg (by decide),
            if_neg (by decide), if_neg (by decide), if_pos rfl]
          obtain ⟨c, t, hct⟩ : ∃ c t, natChars i.natAbs = c :: t := by
            cases h : natChars i.natAbs with
            | nil => exact absurd h (natChars_ne_nil _)
            | cons c t => exact ⟨c, t, rfl⟩
          have hd : isDigitChar c = true :=
            natChars_all_digits i.natAbs c (hct ▸ List.mem_cons_self _ _)
          have hrd : readDigits (natChars i.natAbs ++ rest) 0 = (i.natAbs, rest) := by
            rw [readDigits_append _ _ _ (natChars_all_digits _) hrest, natChars_foldl]
          rw [hct, List.cons_append]
          dsimp only
          rw [if_pos hd, ← List.cons_append, ← hct, hrd]
          dsimp only
          simp only [Option.some.injEq, Prod.mk.injEq, Py.int.injEq, and_true]
          omega
        · have hdm : dumpsChars (.int i) = natChars i.natAbs := by
            simp [dumpsChars, intChars, hneg]
          rw [hdm, parseVal_natChars f i.natAbs rest hrest]
          simp only [Option.some.injEq, Prod.mk.injEq, Py.int.injEq, and_true]
          omega
      | str s =>
        simp only [dumpsChars, strLit, List.cons_append, List.nil_append, List.append_assoc,
          List.singleton_append]
        rw [parseVal.eq_2, skipWs_cons_not_ws (by decide)]
        dsimp only
        rw [if_pos rfl, parseStrBody_escStr]
      | list vs =>
        cases vs with
        | nil =>
          simp only [dumpsChars, List.cons_append, List.nil_append]
          rw [parseVal.eq_2, skipWs_cons_not_ws (by decide)]
          dsimp only
          rw [if_neg (by decide), if_pos rfl]
          rw [skipWs_cons_not_ws (by decide)]
          dsimp only
          rw [if_pos rfl]
        | cons w ws =>
          simp only [dumpsChars, List.cons_append, List.nil_append, List.append_assoc, List.singleton_append]
          rw [parseVal.eq_2, skipWs_cons_not_ws (by decide)]
          dsimp only
          rw [if_neg (by decide), if_pos rfl]
          obtain ⟨c, t, hct, hws, hrb, hrbr, hcm⟩ := dumpsChars_head w
          have hshape : dumpsChars w ++ (dumpsListRest ws ++ (']' :: rest))
              = c :: (t ++ (dumpsListRest ws ++ (']' :: rest))) := by
            rw [hct, List.cons_append]
          rw [hshape, skipWs_cons_not_ws hws]
          dsimp only
          rw [if_neg hrb, ← List.cons_append, ← hct]
          have h3 : pyFuel (.list (w :: ws)) = 1 + pyFuel w + pyFuel (.list ws) := by
            simp [pyFuel]
          have h2 := listRestFuel_lt ws
          have hB := (ih f (by omega)).2.1 w ws rest (by rw [h3] at hfuel; omega)
          rw [hB]
      | dict kvs =>
        cases kvs with
        | nil =>
          simp only [dumpsChars, List.cons_append, List.nil_append]
          rw [parseVal.eq_2, skipWs_cons_not_ws (by decide)]
          dsimp only
          rw [if_neg (by decide), if_neg (by decide), if_pos rfl]
          rw [skipWs_cons_not_ws (by decide)]
          dsimp only
          rw [if_pos rfl]
        | cons kv ms =>
          obtain ⟨k, w⟩ := kv
          simp only [dumpsChars, strLit, List.cons_append, List.nil_append, List.append_assoc,
            List.singleton_append]
          rw [parseVal.eq_2, skipWs_cons_not_ws (by decide)]
          dsimp only
          rw [if_neg (by decide), if_neg (by decide), if_pos rfl]
          rw [skipWs_cons_not_ws (by decide)]
          dsimp only
          rw [if_neg (by decide)]
          have h3 : pyFuel (.dict ((k, w) :: ms)) = 1 + pyFuel w + pyFuel (.dict ms) := by
            simp [pyFuel]
          have h2 := membersRestFuel_lt ms
          have hC := (ih f (by omega)).2.2 k w ms rest (by rw [h3] at hfuel; omega)
          simp only [strLit, List.cons_append, List.nil_append, List.append_assoc,
          List.singleton_append] at hC
          rw [hC]
  · -- parseElems on the first element and the tail of a serialized list
    intro v vs rest hfuel
    have h1 : 1 ≤ pyFuel v := pyFuel_pos v
    cases fuel with
    | zero => omega
    | succ f =>
      rw [parseElems.eq_2]
      have hbd : boundaryOk (dumpsListRest vs ++ (']' :: rest)) = true := by
        cases vs with
        | nil => simp [dumpsListRest, boundaryOk, isDigitChar]
        | cons w ws => simp [dumpsListRest, boundaryOk, isDigitChar]
      have hA := (ih f (by omega)).1 v (dumpsListRest vs ++ (']' :: rest)) (by omega) hbd
      rw [hA]
      dsimp only
      cases vs with
      | nil =>
        simp only [dumpsListRest, List.nil_append]
        rw [skipWs_cons_not_ws (by decide)]
        dsimp only
        rw [if_pos rfl]
      | cons w ws =>
        simp only [dumpsListRest, List.cons_append, List.nil_append, List.append_assoc]
        rw [skipWs_cons_not_ws (by decide)]
        dsimp only
        rw [if_neg (by decide), if_pos rfl, parseElems_cons_space]
        have hlr : listRestFuel (w :: ws) = 1 + pyFuel w + listRestFuel ws := by
          simp [listRestFuel]
        have hB := (ih f (by omega)).2.1 w ws rest (by rw [hlr] at hfuel; omega)
        rw [hB]
  · -- parseMembers on the first member and the tail of a serialized object
    intro k v kvs rest hfuel
    have h1 : 1 ≤ pyFuel v := pyFuel_pos v
    cases fuel with
    | zero => omega
    | succ f =>
      rw [parseMembers.eq_2]
      simp only [strLit, List.cons_append, List.nil_append, List.append_assoc,
        List.singleton_append]
      rw [skipWs_cons_not_ws (by decide)]
      dsimp only
      rw [if_pos rfl, parseStrBody_escStr]
      dsimp only
      rw [skipWs_cons_not_ws (by decide)]
      dsimp only
      rw [if_pos rfl, parseVal_cons_space]
      have hbd : boundaryOk (dumpsMembersRest kvs ++ (rbraceC :: rest)) = true := by
        cases kvs with
        | nil => simp [dumpsMembersRest, boundaryOk, isDigitChar, rbraceC]
        | cons kv ms =>
          obtain ⟨k2, v2⟩ := kv
          simp [dumpsMembersRest, boundaryOk, isDigitChar]
      have hA := (ih f (by omega)).1 v (dumpsMembersRest kvs ++ (rbraceC :: rest)) (by omega) hbd
      rw [hA]
      dsimp only
      cases kvs with
      | nil =>
        simp only [dumpsMembersRest, List.nil_append]
        rw [skipWs_cons_not_ws (by decide)]
        dsimp only
        rw [if_pos rfl]
      | cons kv ms =>
        obtain ⟨k2, v2⟩ := kv
        simp only [dumpsMembersRest, List.cons_append, List.nil_append, List.append_assoc,
          List.singleton_append]
        rw [skipWs_cons_not_ws (by decide)]
        dsimp only
        rw [if_neg (by decide), if_pos rfl, parseMembers_cons_space]
        have hmr : membersRestFuel ((k2, v2) :: ms) = 1 + pyFuel v2 + membersRestFuel ms := by
          simp [membersRestFuel]
        have hC := (ih f (by omega)).2.2 k2 v2 ms rest (by rw [hmr] at hfuel; omega)
        rw [hC]

theorem pyFuel_list_eq : ∀ vs, pyFuel (.list vs) = 1 + listRestFuel vs := by
  intro vs
  induction vs with
  | nil => simp [pyFuel, listRestFuel]
  | cons v vs ih =>
    rw [show listRestFuel (v :: vs) = 1 + pyFuel v + listRestFuel vs from rfl]
    simp only [pyFuel, ih]
    omega

theorem pyFuel_dict_eq : ∀ kvs, pyFuel (.dict kvs) = 1 + membersRestFuel kvs := by
  intro kvs
  induction kvs with
  | nil => simp [pyFuel, membersRestFuel]
  | cons kv kvs ih =>
    obtain ⟨k, v⟩ := kv
    rw [show membersRestFuel ((k, v) :: kvs) = 1 + pyFuel v + membersRestFuel kvs from rfl]
    simp only [pyFuel, ih]
    omega

theorem strLit_len (k : String) : 2 ≤ (strLit k).length := by
  simp [strLit]

mutual

theorem pyFuel_le_dumpsLen : ∀ v : Py, pyFuel v ≤ (dumpsChars v).length
  | .null => by simp [pyFuel, dumpsChars]
  | .bool b => by cases b <;> simp [pyFuel, dumpsChars]
  | .int i => by
    have hl : 1 ≤ (natChars i.natAbs).length := by
      cases hh : natChars i.natAbs with
      | nil => exact absurd hh (natChars_ne_nil _)
      | cons c t => simp
    simp only [pyFuel, dumpsChars, intChars]
    split <;> simp <;> omega
  | .str s => by
    have := strLit_len s
    simp only [pyFuel, dumpsChars]
    omega
  | .list [] => by simp [pyFuel, dumpsChars]
  | .list (v :: vs) => by
    have h1 := pyFuel_le_dumpsLen v
    have h2 := listRestFuel_le_len vs
    rw [pyFuel_list_eq, show listRestFuel (v :: vs) = 1 + pyFuel v + listRestFuel vs from rfl]
    simp only [dumpsChars, List.length_cons, List.length_append]
    simp
    omega
  | .dict [] => by simp [pyFuel, dumpsChars]
  | .dict ((k, v) :: kvs) => by
    have h1 := pyFuel_le_dumpsLen v
    have h2 := membersRestFuel_le_len kvs
    have h3 := strLit_len k
    rw [pyFuel_dict_eq,
      show membersRestFuel ((k, v) :: kvs) = 1 + pyFuel v + membersRestFuel kvs from rfl]
    simp only [dumpsChars, List.length_cons, List.length_append]
    simp
    omega

theorem listRestFuel_le_len : ∀ vs, listRestFuel vs ≤ (dumpsListRest vs).length
  | [] => by simp [listRestFuel, dumpsListRest]
  | v :: vs => by
    have h1 := pyFuel_le_dumpsLen v
    have h2 := listRestFuel_le_len vs
    rw [show listRestFuel (v :: vs) = 1 + pyFuel v + listRestFuel vs from rfl]
    simp only [dumpsListRest, List.length_cons, List.length_append]
    omega

theorem membersRestFuel_le_len : ∀ kvs, membersRestFuel kvs ≤ (dumpsMembersRest kvs).length
  | [] => by simp [membersRestFuel, dumpsMembersRest]
  | (k, v) :: kvs => by
    have h1 := pyFuel_le_dumpsLen v
    have h2 := membersRestFuel_le_len kvs
    have h3 := strLit_len k
    rw [show membersRestFuel ((k, v) :: kvs) = 1 + pyFuel v + membersRestFuel kvs from rfl]
    simp only [dumpsMembersRest, List.length_cons, List.length_append]
    omega

end

/-- json.loads inverts json.dumps. -/
theorem pyLoads_pyDumps (v : Py) : pyLoads (pyDumps v) = some v := by
  have hlen := pyFuel_le_dumpsLen v
  have hA := (parse_dumps_master ((dumpsChars v).length + 1)).1 v [] (by omega) rfl
  rw [List.append_nil] at hA
  rw [pyLoads]
  have hd : (pyDumps v).data = dumpsChars v := rfl
  rw [hd, hA]
  rfl

/-- json.loads("\x7b\x7d") is the empty dict. -/
theorem pyLoads_emptyObj : pyLoads emptyObjStr = some (.dict []) := rfl

/-- json.dumps never returns the empty string. -/
theorem pyDumps_ne_empty (v : Py) : pyDumps v ≠ "" := by
  obtain ⟨c, t, hct, h2, h3, h4, h5⟩ := dumpsChars_head v
  intro h
  have hdata : (pyDumps v).data = [] := by rw [h]
  rw [show (pyDumps v).data = dumpsChars v from rfl, hct] at hdata
  cases hdata

/-- A dumped JSON string is truthy. -/
theorem pyTruthy_dumps (v : Py) : pyTruthy (Py.str (pyDumps v)) = true := by
  simp [pyTruthy, pyDumps_ne_empty v]

/-! ### Association list lemmas -/

theorem assocGet_map_self (names : List String) (g : String → Py) (f : String) :
    assocGet (names.map (fun n => (n, g n))) f = if f ∈ names then some (g f) else none := by
  induction names with
  | nil => simp [assocGet]
  | cons n names ih =>
    simp only [List.map_cons, assocGet, List.mem_cons]
    by_cases h : n = f
    · subst h
      simp
    · rw [if_neg h, ih]
      by_cases hf : f ∈ names
      · simp [hf, Ne.symm h]
      · simp [hf, Ne.symm h]

theorem assocGet_filter (l : List (String × Py)) (p : String → Bool) (f : String)
    (hf : p f = true) :
    assocGet (l.filter (fun kv => p kv.1)) f = assocGet l f := by
  induction l with
  | nil => simp
  | cons kv t ih =>
    obtain ⟨k, v⟩ := kv
    by_cases hk : p k = true
    · simp only [List.filter_cons, hk, if_true, assocGet, ih]
    · have hne : k ≠ f := by
        intro h
        subst h
        rw [hf] at hk
        exact hk rfl
      simp only [List.filter_cons, hk, assocGet, if_neg hne, ih]
      simp [ih]

theorem assocGet_dictInsert_self (l : List (String × Py)) (k : String) (v : Py) :
    assocGet (dictInsert l k v) k = some v := by
  induction l with
  | nil => simp [dictInsert, assocGet]
  | cons kv t ih =>
    obtain ⟨k1, v1⟩ := kv
    by_cases h : k1 = k
    · subst h
      simp [dictInsert, assocGet]
    · simp [dictInsert, h, assocGet, ih]

theorem assocGet_dictInsert_ne (l : List (String × Py)) (k : String) (v : Py) (f : String)
    (h : f ≠ k) :
    assocGet (dictInsert l k v) f = assocGet l f := by
  induction l with
  | nil => simp [dictInsert, assocGet, Ne.symm h]
  | cons kv t ih =>
    obtain ⟨k1, v1⟩ := kv
    by_cases h1 : k1 = k
    · subst h1
      simp [dictInsert, assocGet, Ne.symm h]
    · by_cases h2 : k1 = f
      · subst h2
        simp [dictInsert, h1, assocGet]
      · simp [dictInsert, h1, assocGet, h2, ih]

theorem getAttr_isSome_of_mem_keys (l : List (String × Py)) (f : String) :
    f ∈ l.map Prod.fst ↔ (assocGet l f).isSome := by
  induction l with
  | nil => simp [assocGet]
  | cons kv t ih =>
    obtain ⟨k, v⟩ := kv
    by_cases h : k = f
    · subst h
      simp [assocGet]
    · simp [assocGet, h, Ne.symm h, ih]

theorem map_fst_dictInsert (l : List (String × Py)) (k : String) (v : Py)
    (h : (assocGet l k).isSome) :
    (dictInsert l k v).map Prod.fst = l.map Prod.fst := by
  induction l with
  | nil => simp [assocGet] at h
  | cons kv t ih =>
    obtain ⟨k1, v1⟩ := kv
    by_cases h1 : k1 = k
    · subst h1
      simp [dictInsert]
    · simp only [assocGet, if_neg h1] at h
      simp [dictInsert, h1, ih h]

theorem assoc_ext : ∀ (l1 l2 : List (String × Py)), l1.map Prod.fst = l2.map Prod.fst →
    (l1.map Prod.fst).Nodup → (∀ k, assocGet l1 k = assocGet l2 k) → l1 = l2 := by
  intro l1
  induction l1 with
  | nil =>
    intro l2 hk _ _
    cases l2 with
    | nil => rfl
    | cons kv t => simp at hk
  | cons kv t1 ih =>
    intro l2 hk hnd hget
    obtain ⟨k, v⟩ := kv
    cases l2 with
    | nil => simp at hk
    | cons kv2 t2 =>
      obtain ⟨k2, v2⟩ := kv2
      simp only [List.map_cons, List.cons.injEq] at hk
      obtain ⟨hk1, hk2⟩ := hk
      subst hk1
      have hv : v = v2 := by
        have := hget k
        simp [assocGet] at this
        exact this
      subst hv
      simp only [List.map_cons, List.nodup_cons] at hnd
      obtain ⟨hknot, hndt⟩ := hnd
      have htl : t1 = t2 := by
        refine ih t2 hk2 hndt ?_
        intro k'
        by_cases h : k' = k
        · subst h
          have h1 : assocGet t1 k' = none := by
            cases hh : assocGet t1 k' with
            | none => rfl
            | some w =>
              exfalso
              apply hknot
              rw [getAttr_isSome_of_mem_keys, hh]
              rfl
          have h2 : assocGet t2 k' = none := by
            cases hh : assocGet t2 k' with
            | none => rfl
            | some w =>
              exfalso
              apply hknot
              rw [hk2, getAttr_isSome_of_mem_keys, hh]
              rfl
          rw [h1, h2]
        · have := hget k'
          simpa [assocGet, Ne.symm h] using this
      rw [htl]

/-! ### __post_init__ lemmas -/

theorem postInitAux_spec : ∀ (fs : List String) (o e : Obj), fs.Nodup →
    Object.postInitAux fs o = some e →
    e.parent = o.parent ∧
    e.fields.map Prod.fst = o.fields.map Prod.fst ∧
    (∀ f ∈ fs, e.getAttr f = decodeStep (o.getAttr f) ∧ (decodeStep (o.getAttr f)).isSome) ∧
    (∀ f, f ∉ fs → e.getAttr f = o.getAttr f) := by
  intro fs
  induction fs with
  | nil =>
    intro o e _ h
    simp only [Object.postInitAux, Option.some.injEq] at h
    subst h
    exact ⟨rfl, rfl, by simp, fun f _ => rfl⟩
  | cons g fs ih =>
    intro o e hnd h
    simp only [Object.postInitAux] at h
    cases hg : decodeStep (o.getAttr g) with
    | none =>
      rw [hg] at h
      cases h
    | some w =>
      rw [hg] at h
      simp only [List.nodup_cons] at hnd
      obtain ⟨hgnot, hndt⟩ := hnd
      obtain ⟨hp, hkeys, hmem, hnotmem⟩ := ih (o.setAttr g w) e hndt h
      have hsome : (o.getAttr g).isSome := by
        cases hoa : o.getAttr g with
        | none =>
          rw [hoa] at hg
          simp [decodeStep] at hg
        | some v0 => rfl
      have hsets : ∀ f, f ≠ g → (o.setAttr g w).getAttr f = o.getAttr f := by
        intro f hf
        simp only [Obj.setAttr, Obj.getAttr]
        exact assocGet_dictInsert_ne _ _ _ _ hf
      refine ⟨?_, ?_, ?_, ?_⟩
      · rw [hp]
        rfl
      · rw [hkeys]
        simp only [Obj.setAttr]
        exact map_fst_dictInsert _ _ _ hsome
      · intro f hf
        rcases List.mem_cons.mp hf with rfl | hfs
        · have he : e.getAttr f = (o.setAttr f w).getAttr f := hnotmem f hgnot
          have hg2 : (o.setAttr f w).getAttr f = some w := by
            simp only [Obj.setAttr, Obj.getAttr]
            exact assocGet_dictInsert_self _ _ _
          rw [he, hg2, hg]
          exact ⟨rfl, rfl⟩
        · have hfne : f ≠ g := by
            intro hh
            subst hh
            exact hgnot hfs
          obtain ⟨h1, h2⟩ := hmem f hfs
          rw [hsets f hfne] at h1 h2
          exact ⟨h1, h2⟩
      · intro f hf
        have hfne : f ≠ g := by
          intro hh
          subst hh
          exact hf (List.mem_cons_self _ _)
        have hfs : f ∉ fs := fun hh => hf (List.mem_cons_of_mem _ hh)
        rw [hnotmem f hfs, hsets f hfne]

theorem postInitAux_some : ∀ (fs : List String) (o : Obj), fs.Nodup →
    (∀ f ∈ fs, (decodeStep (o.getAttr f)).isSome) →
    ∃ e, Object.postInitAux fs o = some e := by
  intro fs
  induction fs with
  | nil =>
    intro o _ _
    exact ⟨o, rfl⟩
  | cons g fs ih =>
    intro o hnd hdec
    simp only [List.nodup_cons] at hnd
    obtain ⟨hgnot, hndt⟩ := hnd
    obtain ⟨w, hw⟩ := Option.isSome_iff_exists.mp (hdec g (List.mem_cons_self _ _))
    obtain ⟨e, he⟩ := ih (o.setAttr g w) hndt (by
      intro f hf
      have hfne : f ≠ g := by
        intro hh
        subst hh
        exact hgnot hf
      have : (o.setAttr g w).getAttr f = o.getAttr f := by
        simp only [Obj.setAttr, Obj.getAttr]
        exact assocGet_dictInsert_ne _ _ _ _ hfne
      rw [this]
      exact hdec f (List.mem_cons_of_mem _ hf))
    refine ⟨e, ?_⟩
    simp only [Object.postInitAux, hw]
    exact he

/-! ### to_json and from_json normal forms -/

theorem to_json_lookup_aux (et : EntityType) (o : Obj) : ∀ (columns : List String)
    (acc : List (String × Py)) (f : String),
    assocGet (columns.foldl (fun acc c =>
      match o.getAttr c with
      | none => acc
      | some v => dictInsert acc c (if c ∈ et.jsonFields then Py.str (pyDumps v) else v)) acc) f =
      if f ∈ columns ∧ (encCol et o f).isSome then encCol et o f else assocGet acc f := by
  intro columns
  induction columns with
  | nil =>
    intro acc f
    simp
  | cons c cs ih =>
    intro acc f
    simp only [List.foldl_cons]
    cases hoa : o.getAttr c with
    | none =>
      rw [ih]
      by_cases hfc : f = c
      · subst hfc
        have henc : encCol et o f = none := by simp [encCol, hoa]
        simp [henc]
      · simp [List.mem_cons, hfc]
    | some v =>
      rw [ih]
      by_cases hfc : f = c
      · subst hfc
        have henc : encCol et o f =
            some (if f ∈ et.jsonFields then Py.str (pyDumps v) else v) := by
          simp [encCol, hoa]
        by_cases hmem : f ∈ cs
        · simp [henc, hmem]
        · simp [henc, hmem, assocGet_dictInsert_self]
      · rw [assocGet_dictInsert_ne _ _ _ _ hfc]
        simp [List.mem_cons, hfc]

theorem to_json_lookup (et : EntityType) (o : Obj) (columns : List String) (f : String) :
    assocGet (Object.to_json et o columns) f =
      if f ∈ columns ∧ (encCol et o f).isSome then encCol et o f else none := by
  have h := to_json_lookup_aux et o columns [] f
  rw [Object.to_json, h]
  rfl

theorem construct_eq (et : EntityType) (kwargs : List (String × Py))
    (hall : kwargs.all (fun kv => decide (kv.1 ∈ et.fieldNames)) = true) :
    Object.construct et kwargs =
      Object.postInitAux et.jsonFields
        { fields := et.fieldNames.map (fun n => (n, (assocGet kwargs n).getD (et.defaultOf n))),
          parent := none } := by
  rw [Object.construct, Object.dataclassInit, if_pos hall]
  rfl

theorem from_json_eq (et : EntityType) (payload : List (String × Py)) :
    Object.from_json et payload =
      Object.postInitAux et.jsonFields
        { fields := et.fieldNames.map (fun n =>
            (n, (assocGet (payload.filter (fun kv => decide (kv.1 ∈ et.fieldNames))) n).getD
              (et.defaultOf n))),
          parent := none } := by
  have hall : (payload.filter (fun kv => decide (kv.1 ∈ et.fieldNames))).all
      (fun kv => decide (kv.1 ∈ et.fieldNames)) = true := by
    rw [List.all_eq_true]
    intro kv hkv
    exact (List.mem_filter.mp hkv).2
  rw [Object.from_json, construct_eq et _ hall]

/-! ### Claim theorems -/

/-- C1: for every entity built by the JSON factory, every field declared in
JSON_FIELDS holds the decoded value immediately after construction — it
equals json.loads of the wire string, never the wire string itself — and a
wire value that is null, the empty string, or absent from the payload
decodes to the empty dict (json_field() declares the default None, which
the hypothesis on the declared default reflects). -/
theorem c1_json_fields_decoded (et : EntityType) (payload : List (String × Py)) (e : Obj)
    (f : String) (h : Object.from_json et payload = some e) (hf : f ∈ et.jsonFields)
    (hnd : et.jsonFields.Nodup) (hdef : pyTruthy (et.defaultOf f) = false) :
    ((assocGet payload f = none ∨ assocGet payload f = some Py.null ∨
        assocGet payload f = some (Py.str "")) → e.getAttr f = some (Py.dict [])) ∧
    (∀ s, assocGet payload f = some (Py.str s) → s ≠ "" → e.getAttr f = pyLoads s) := by
  rw [from_json_eq] at h
  obtain ⟨hp, hkeys, hmem, hnotmem⟩ := postInitAux_spec _ _ _ hnd h
  obtain ⟨hval, hdecS⟩ := hmem f hf
  have hffn : f ∈ et.fieldNames := by
    by_contra hnot
    have hnone : Obj.getAttr
        { fields := et.fieldNames.map (fun n =>
            (n, (assocGet (payload.filter (fun kv => decide (kv.1 ∈ et.fieldNames))) n).getD
              (et.defaultOf n))),
          parent := none } f = none := by
      simp only [Obj.getAttr]
      rw [assocGet_map_self]
      simp [hnot]
    rw [hnone] at hdecS
    simp [decodeStep] at hdecS
  have hinit : Obj.getAttr
      { fields := et.fieldNames.map (fun n =>
          (n, (assocGet (payload.filter (fun kv => decide (kv.1 ∈ et.fieldNames))) n).getD
            (et.defaultOf n))),
        parent := none } f =
      some ((assocGet payload f).getD (et.defaultOf f)) := by
    simp only [Obj.getAttr]
    rw [assocGet_map_self]
    rw [if_pos hffn,
      assocGet_filter payload (fun s => decide (s ∈ et.fieldNames)) f (by simp [hffn])]
  rw [hinit] at hval
  constructor
  · intro hcase
    rcases hcase with hc | hc | hc
    · rw [hc] at hval
      rw [hval]
      simp [decodeStep, hdef, pyLoads_emptyObj]
    · rw [hc] at hval
      rw [hval]
      simp [decodeStep, pyTruthy, pyLoads_emptyObj]
    · rw [hc] at hval
      rw [hval]
      simp [decodeStep, pyTruthy, pyLoads_emptyObj]
  · intro s hs hsne
    rw [hs] at hval
    rw [hval]
    have ht : pyTruthy (Py.str s) = true := by simp [pyTruthy, hsne]
    simp [decodeStep, ht]

/-- Witness for c1_json_fields_decoded at a concrete entity type and payload:
the payload does not carry the JSON field, so the constructed entity holds
the empty dict there. -/
theorem c1_json_fields_decoded_w :
    Obj.getAttr { fields := [("params", Py.dict [])], parent := none } "params" =
      some (Py.dict []) := by
  have h := c1_json_fields_decoded
    { fieldNames := ["params"], jsonFields := ["params"], defaults := [("params", Py.null)] }
    [("name", Py.str "A")]
    { fields := [("params", Py.dict [])], parent := none }
    "params" (by rfl) (by decide) (by decide) (by rfl)
  exact h.1 (Or.inl (by rfl))

/-- C2: the error-translation priority of raise_for_status: a response that
passes the transport status check raises nothing; a failing response
raises BadRequestError carrying the body's message value when that key is
extractable, else ComplexBadRequestError carrying the body's errors value
when that key is extractable, else re-raises the original transport
error. -/
theorem c2_raise_for_status_priority (resp : Response) :
    ((resp.status < 400 ∨ 600 ≤ resp.status) → raise_for_status resp = .ok) ∧
    (400 ≤ resp.status → resp.status < 600 →
      (∀ m, jsonKey resp.body "message" = some m →
        raise_for_status resp = .badRequest m) ∧
      (jsonKey resp.body "message" = none →
        ∀ es, jsonKey resp.body "errors" = some es →
          raise_for_status resp = .complexBadRequest es) ∧
      (jsonKey resp.body "message" = none → jsonKey resp.body "errors" = none →
        raise_for_status resp = .httpError)) := by
  constructor
  · intro hs
    rw [raise_for_status, if_neg (by omega)]
  · intro h1 h2
    refine ⟨?_, ?_, ?_⟩
    · intro m hm
      rw [raise_for_status, if_pos ⟨h1, h2⟩, hm]
    · intro hm es hes
      rw [raise_for_status, if_pos ⟨h1, h2⟩, hm, hes]
    · intro hm hes
      rw [raise_for_status, if_pos ⟨h1, h2⟩, hm, hes]

/-- Witness for c2_raise_for_status_priority: a 422 with a message body
raises BadRequestError carrying that message. -/
theorem c2_raise_for_status_priority_w :
    raise_for_status
      { status := 422, body := "\x7b\"message\": \"bad field\"\x7d",
        contentType := "", content := [] } =
      .badRequest (.str "bad field") := by
  have h := c2_raise_for_status_priority
    { status := 422, body := "\x7b\"message\": \"bad field\"\x7d",
      contentType := "", content := [] }
  exact (h.2 (by decide) (by decide)).1 (Py.str "bad field") (by rfl)

/-- C6: find_one raises NotFound naming the entity class exactly when find
produced an empty list, and returns the first element of find's result
without raising when the list is non-empty. -/
theorem c6_find_one_first_or_not_found (fac : Factory) (resp : Response) (objs : List Obj)
    (h : ObjectFactories.findParse fac resp = .ok objs) :
    (objs = [] → ObjectFactories.find_one fac resp =
      .error (.notFound ("No " ++ fac.objectName ++ " has been found."))) ∧
    (∀ o t, objs = o :: t → ObjectFactories.find_one fac resp = .ok o) := by
  constructor
  · intro he
    subst he
    rw [ObjectFactories.find_one, h]
  · intro o t he
    subst he
    rw [ObjectFactories.find_one, h]

/-- Witness for c6_find_one_first_or_not_found: one row in the result
envelope, returned as the first (and only) parent-bound entity. -/
theorem c6_find_one_first_or_not_found_w :
    ObjectFactories.find_one facDash
      { status := 200, body := "\x7b\"result\": [\x7b\"id\": 1, \"name\": \"A\"\x7d]\x7d",
        contentType := "", content := [] } =
      .ok { fields := [("id", Py.int 1), ("name", Py.str "A")], parent := some facDash } := by
  have h := c6_find_one_first_or_not_found facDash
    { status := 200, body := "\x7b\"result\": [\x7b\"id\": 1, \"name\": \"A\"\x7d]\x7d",
      contentType := "", content := [] }
    [{ fields := [("id", Py.int 1), ("name", Py.str "A")], parent := some facDash }]
    (by rfl)
  exact h.2 _ _ rfl

/-- C7: for a create whose response passes the status check and carries a
JSON-object body, add leaves the caller's entity updated in place: its id
attribute equals the server-assigned id read from the response body (None
when the key is absent, as dict.get returns), its parent back-reference
is bound to the collection, every other attribute is unchanged, and the
returned value is that same id. -/
theorem c7_add_mutates_entity (fac : Factory) (cols : List String) (o : Obj) (resp : Response)
    (d : List (String × Py)) (hok : raise_for_status resp = .ok)
    (hbody : pyLoads resp.body = some (.dict d)) :
    ∃ o2,
      ObjectFactories.add fac cols o resp =
        .ok (Object.to_json fac.et o cols, o2, (assocGet d "id").getD Py.null) ∧
      o2.getAttr "id" = some ((assocGet d "id").getD Py.null) ∧
      o2.parent = some fac ∧
      (∀ g, g ≠ "id" → o2.getAttr g = o.getAttr g) := by
  refine ⟨{ o with fields := dictInsert o.fields "id" ((assocGet d "id").getD Py.null), parent := some fac }, ?_, ?_, ?_, ?_⟩
  · simp only [ObjectFactories.add, hok, hbody]
  · simp only [Obj.getAttr]
    exact assocGet_dictInsert_self _ _ _
  · rfl
  · intro g hg
    simp only [Obj.getAttr]
    exact assocGet_dictInsert_ne _ _ _ _ hg

/-- Witness for c7_add_mutates_entity: a 201 whose body assigns id 7. -/
theorem c7_add_mutates_entity_w :
    ∃ o2,
      ObjectFactories.add facDash ["name"]
        { fields := [("id", Py.null), ("name", Py.str "A")], parent := none }
        { status := 201, body := "\x7b\"id\": 7\x7d", contentType := "", content := [] } =
        .ok (Object.to_json etPlain
          { fields := [("id", Py.null), ("name", Py.str "A")], parent := none }
          ["name"], o2, (assocGet [("id", Py.int 7)] "id").getD Py.null) ∧
      o2.getAttr "id" = some ((assocGet [("id", Py.int 7)] "id").getD Py.null) ∧
      o2.parent = some facDash ∧
      (∀ g, g ≠ "id" → o2.getAttr g =
        Obj.getAttr { fields := [("id", Py.null), ("name", Py.str "A")], parent := none } g) :=
  c7_add_mutates_entity facDash ["name"]
    { fields := [("id", Py.null), ("name", Py.str "A")], parent := none }
    { status := 201, body := "\x7b\"id\": 7\x7d", contentType := "", content := [] }
    [("id", Py.int 7)] (by rfl) (by rfl)

/-- C8 as stated is false: a delete whose response passes the HTTP status
check but whose body is the JSON array [] raises (the AttributeError of
.get on a list) instead of returning False. -/
theorem c8_delete_counterexample :
    raise_for_status { status := 200, body := "[]", contentType := "", content := [] } = .ok ∧
    ObjectFactories.delete { status := 200, body := "[]", contentType := "", content := [] } =
      .error .attributeErr := ⟨rfl, rfl⟩

/-- C8 amended: for a delete whose response passes the HTTP status check
and whose body is a JSON object, the return value is True exactly when
the body's message field is the string "OK", and False for any other
JSON-object body (key absent or value different); a body that is not a
JSON object raises instead of returning.  Success is therefore read from
the body, never from the HTTP status alone. -/
theorem c8_delete_message_ok (resp : Response) (d : List (String × Py))
    (hok : raise_for_status resp = .ok) (hbody : pyLoads resp.body = some (.dict d)) :
    (ObjectFactories.delete resp = .ok true ↔ assocGet d "message" = some (Py.str "OK")) ∧
    (ObjectFactories.delete resp = .ok false ↔
      ¬ assocGet d "message" = some (Py.str "OK")) := by
  have hdel : ObjectFactories.delete resp = .ok (isOkMessage d) := by
    simp only [ObjectFactories.delete, hok, hbody]
  have hiff : isOkMessage d = true ↔ assocGet d "message" = some (Py.str "OK") := by
    rw [isOkMessage]
    cases hm : assocGet d "message" with
    | none => simp
    | some v => cases v <;> simp
  rw [hdel]
  constructor
  · simp only [Except.ok.injEq]
    exact hiff
  · simp only [Except.ok.injEq]
    constructor
    · intro h hmem
      rw [← hiff] at hmem
      rw [hmem] at h
      cases h
    · intro h
      cases hb : isOkMessage d with
      | false => rfl
      | true => exact absurd (hiff.mp hb) h

/-- Witness for c8_delete_message_ok: body message "OK" returns True. -/
theorem c8_delete_message_ok_w :
    ObjectFactories.delete
      { status := 200, body := "\x7b\"message\": \"OK\"\x7d",
        contentType := "", content := [] } = .ok true := by
  have h := c8_delete_message_ok
    { status := 200, body := "\x7b\"message\": \"OK\"\x7d", contentType := "", content := [] }
    [("message", Py.str "OK")] (by rfl) (by rfl)
  exact h.1.mpr (by rfl)

/-- C9 as stated is false: decoding the single q parameter of a one-filter
find request shows the operator string carried in the filter entry is
"eq", not "equals". -/
theorem c9_find_query_counterexample :
    ObjectFactories.findParams 100 0 [("name", Py.str "A")] =
      [("q", pyDumps (ObjectFactories.findQuery 100 0 [("name", Py.str "A")]))] ∧
    pyLoads (pyDumps (ObjectFactories.findQuery 100 0 [("name", Py.str "A")])) =
      some (.dict [("page_size", .int 100), ("page", .int 0),
        ("filters", .list [.dict [("col", .str "name"), ("opr", .str "eq"),
          ("value", .str "A")]])]) ∧
    Py.str "eq" ≠ Py.str "equals" := by
  refine ⟨rfl, by rfl, ?_⟩
  intro h
  exact absurd (Py.str.inj h) (by decide)

/-- C9 amended: find sends a single query parameter q whose value is the
JSON encoding of the object with keys page_size, page and filters (the
encoding decodes back to exactly that object), where filters holds one
entry per keyword argument with col the argument name, value the argument
value, and the operator fixed to the string "eq". -/
theorem c9_find_query_params (pageSize page : Int) (kwargs : List (String × Py)) :
    ObjectFactories.findParams pageSize page kwargs =
      [("q", pyDumps (ObjectFactories.findQuery pageSize page kwargs))] ∧
    pyLoads (pyDumps (ObjectFactories.findQuery pageSize page kwargs)) =
      some (ObjectFactories.findQuery pageSize page kwargs) ∧
    ObjectFactories.findQuery pageSize page kwargs =
      .dict [("page_size", .int pageSize), ("page", .int page),
        ("filters", .list (kwargs.map (fun kv =>
          .dict [("col", .str kv.1), ("opr", .str "eq"), ("value", kv.2)])))] :=
  ⟨rfl, pyLoads_pyDumps _, rfl⟩

/-- A header value cannot start with both content-type prefixes. -/
theorem zip_not_text {s : List Char} (hz : List.isPrefixOf "application/zip".data s = true) :
    List.isPrefixOf "application/text".data s = false := by
  by_contra hcon
  rw [Bool.not_eq_false] at hcon
  rw [List.isPrefixOf_iff_prefix] at hcon hz
  have hle : ("application/zip".data).length ≤ ("application/text".data).length := by decide
  have hpre := List.prefix_of_prefix_length_le hz hcon hle
  have hnot : ¬ ("application/zip".data <+: "application/text".data) := by
    rw [← List.isPrefixOf_iff_prefix]
    decide
  exact hnot hpre

/-- C4: a successful bulk-export response whose stripped content-type
header starts with application/zip produces exactly one write to the
destination path — the response body bytes, verbatim — and the bytes are
what export returns. -/
theorem c4_export_zip_verbatim (path : String) (resp : Response)
    (hok : raise_for_status resp = .ok)
    (hzip : pyStartsWith (pyStrip resp.contentType) "application/zip" = true) :
    ObjectFactories.export' path resp =
      .ok ([.bytesW path resp.content], .bytesD resp.content) := by
  have htext : pyStartsWith (pyStrip resp.contentType) "application/text" = false := by
    rw [pyStartsWith] at hzip ⊢
    exact zip_not_text hzip
  simp [ObjectFactories.export', hok, htext, hzip]

/-- Witness for c4_export_zip_verbatim: a zip response whose two body
bytes land on disk unchanged. -/
theorem c4_export_zip_verbatim_w :
    ObjectFactories.export' "out.zip"
      { status := 200, body := "", contentType := "application/zip", content := [80, 75] } =
      .ok ([.bytesW "out.zip" [80, 75]], .bytesD [80, 75]) :=
  c4_export_zip_verbatim "out.zip"
    { status := 200, body := "", contentType := "application/zip", content := [80, 75] }
    (by rfl) (by rfl)

/-- C3 (the code's behaviour on the claim's scenario): on a successful
application/text export the yaml re-serialization is written and then,
because the zip check is a second independent if whose else branch still
runs, the same path is written a second time with the JSON pretty-dump of
the body, which is also what the call returns — not a single yaml
write. -/
theorem c3_export_text_double_write :
    ObjectFactories.export' "out.yaml"
      { status := 200, body := "[1, 2]", contentType := "application/text", content := [] } =
      .ok ([.yamlW "out.yaml" (.list [.int 1, .int 2]),
        .jsonW "out.yaml" (.list [.int 1, .int 2])], .jsonD (.list [.int 1, .int 2])) := rfl

/-- First components of a keyed map. -/
theorem map_fst_map_pair (names : List String) (g : String → Py) :
    (names.map (fun n => (n, g n))).map Prod.fst = names := by
  induction names with
  | nil => rfl
  | cons n names ih => simp [ih]

/-- Decoding of a field that to_json encoded: loads of dumps. -/
theorem decodeStep_dumps (v : Py) :
    decodeStep (some (Py.str (pyDumps v))) = some v := by
  simp [decodeStep, pyTruthy_dumps, pyLoads_pyDumps]

/-- C5 as stated is false: with the column list ["params"] — a superset of
the declared JSON-string fields — the round trip silently resets every
column outside the list; here name comes back as its default "" instead
of "A", so the reconstructed entity is not equivalent to the original. -/
theorem c5_round_trip_counterexample :
    Object.from_json
      { fieldNames := ["name", "params"], jsonFields := ["params"],
        defaults := [("name", Py.str ""), ("params", Py.null)] }
      (Object.to_json
        { fieldNames := ["name", "params"], jsonFields := ["params"],
          defaults := [("name", Py.str ""), ("params", Py.null)] }
        { fields := [("name", Py.str "A"), ("params", Py.dict [])], parent := none }
        ["params"]) =
      some { fields := [("name", Py.str ""), ("params", Py.dict [])], parent := none } ∧
    Py.str "" ≠ Py.str "A" := by
  refine ⟨by rfl, ?_⟩
  intro h
  exact absurd (Py.str.inj h) (by decide)

/-- C5 amended: the round trip law holds once the column list covers all
declared fields, not merely the JSON-string ones: for a well-formed
entity, from_json of to_json(columns) reconstructs the entity exactly —
same fields in the same order — with the parent reference unset, as the
factory path always leaves it. -/
theorem c5_round_trip (et : EntityType) (o : Obj) (columns : List String)
    (hcols : ∀ n ∈ et.fieldNames, n ∈ columns)
    (hshape : o.fields.map Prod.fst = et.fieldNames)
    (hnd : et.fieldNames.Nodup)
    (hjf : ∀ f ∈ et.jsonFields, f ∈ et.fieldNames)
    (hjnd : et.jsonFields.Nodup) :
    Object.from_json et (Object.to_json et o columns) =
      some { fields := o.fields, parent := none } := by
  have hpres : ∀ n ∈ et.fieldNames, (o.getAttr n).isSome := by
    intro n hn
    exact (getAttr_isSome_of_mem_keys o.fields n).mp (by rw [hshape]; exact hn)
  have hTJ : ∀ n ∈ et.fieldNames,
      assocGet (Object.to_json et o columns) n = encCol et o n := by
    intro n hn
    rw [to_json_lookup]
    have hs := hpres n hn
    cases hv : o.getAttr n with
    | none =>
      rw [hv] at hs
      cases hs
    | some v =>
      rw [if_pos ⟨hcols n hn, by simp [encCol, hv]⟩]
  rw [from_json_eq]
  have ho0 : ∀ n ∈ et.fieldNames, ∀ v, o.getAttr n = some v →
      Obj.getAttr
        { fields := et.fieldNames.map (fun m =>
            (m, (assocGet ((Object.to_json et o columns).filter
              (fun kv => decide (kv.1 ∈ et.fieldNames))) m).getD (et.defaultOf m))),
          parent := none } n =
      some (if n ∈ et.jsonFields then Py.str (pyDumps v) else v) := by
    intro n hn v hv
    simp only [Obj.getAttr]
    rw [assocGet_map_self, if_pos hn,
      assocGet_filter (Object.to_json et o columns) (fun s => decide (s ∈ et.fieldNames)) n
        (by simp [hn]),
      hTJ n hn]
    simp [encCol, hv]
  have hdec : ∀ f ∈ et.jsonFields,
      (decodeStep (Obj.getAttr
        { fields := et.fieldNames.map (fun m =>
            (m, (assocGet ((Object.to_json et o columns).filter
              (fun kv => decide (kv.1 ∈ et.fieldNames))) m).getD (et.defaultOf m))),
          parent := none } f)).isSome := by
    intro f hf
    have hfn := hjf f hf
    have hs := hpres f hfn
    cases hv : o.getAttr f with
    | none =>
      rw [hv] at hs
      cases hs
    | some v =>
      rw [ho0 f hfn v hv, if_pos hf, decodeStep_dumps]
      rfl
  obtain ⟨e, he⟩ := postInitAux_some et.jsonFields _ hjnd hdec
  rw [he]
  obtain ⟨hp, hkeys, hmem, hnotmem⟩ := postInitAux_spec _ _ _ hjnd he
  have hkeys0 : e.fields.map Prod.fst = et.fieldNames := by
    rw [hkeys]
    exact map_fst_map_pair _ _
  have hfields : e.fields = o.fields := by
    apply assoc_ext
    · rw [hkeys0, hshape]
    · rw [hkeys0]
      exact hnd
    · intro k
      by_cases hkf : k ∈ et.fieldNames
      · have hs := hpres k hkf
        cases hv : o.getAttr k with
        | none =>
          rw [hv] at hs
          cases hs
        | some v =>
          by_cases hkj : k ∈ et.jsonFields
          · have hval := (hmem k hkj).1
            rw [ho0 k hkf v hv, if_pos hkj, decodeStep_dumps] at hval
            show Obj.getAttr e k = Obj.getAttr o k
            rw [hval, hv]
          · have hval := hnotmem k hkj
            rw [ho0 k hkf v hv, if_neg hkj] at hval
            show Obj.getAttr e k = Obj.getAttr o k
            rw [hval, hv]
      · have h1 : assocGet e.fields k = none := by
          cases hh : assocGet e.fields k with
          | none => rfl
          | some w =>
            exfalso
            apply hkf
            have hmemk : k ∈ e.fields.map Prod.fst := by
              rw [getAttr_isSome_of_mem_keys, hh]
              rfl
            rwa [hkeys0] at hmemk
        have h2 : assocGet o.fields k = none := by
          cases hh : assocGet o.fields k with
          | none => rfl
          | some w =>
            exfalso
            apply hkf
            have hmemk : k ∈ o.fields.map Prod.fst := by
              rw [getAttr_isSome_of_mem_keys, hh]
              rfl
            rwa [hshape] at hmemk
        rw [h1, h2]
  have hpar : e.parent = none := by rw [hp]
  cases e with
  | mk ef ep =>
    simp only at hfields hpar
    rw [hfields, hpar]

/-- Witness for c5_round_trip: a three-field entity with one JSON field
survives the round trip over the full column list. -/
theorem c5_round_trip_w :
    Object.from_json etMixed
      (Object.to_json etMixed
        { fields := [("id", Py.int 1), ("name", Py.str "A"),
            ("params", Py.dict [("k", Py.int 2)])], parent := none }
        ["id", "name", "params"]) =
      some { fields := [("id", Py.int 1), ("name", Py.str "A"),
          ("params", Py.dict [("k", Py.int 2)])], parent := none } :=
  c5_round_trip etMixed
    { fields := [("id", Py.int 1), ("name", Py.str "A"),
        ("params", Py.dict [("k", Py.int 2)])], parent := none }
    ["id", "name", "params"]
    (by decide) (by rfl) (by decide) (by decide) (by decide)

/-- Success characterization of one __post_init__ decode step on a present
attribute value. -/
theorem decodeStep_some_iff (w : Py) :
    (decodeStep (some w)).isSome = true ↔
      pyTruthy w = false ∨ ∃ s, w = Py.str s ∧ (pyLoads s).isSome = true := by
  cases w with
  | str s =>
    by_cases hs : s = ""
    · subst hs
      simp [decodeStep, pyTruthy, pyLoads_emptyObj]
    · have ht : pyTruthy (Py.str s) = true := by simp [pyTruthy, hs]
      simp [decodeStep, ht]
  | null => simp [decodeStep, pyTruthy, pyLoads_emptyObj]
  | bool b =>
    cases b
    · simp [decodeStep, pyTruthy, pyLoads_emptyObj]
    · simp [decodeStep, pyTruthy]
  | int n =>
    by_cases hn : n = 0
    · subst hn
      simp [decodeStep, pyTruthy, pyLoads_emptyObj]
    · simp [decodeStep, pyTruthy, hn]
  | list xs =>
    cases xs
    · simp [decodeStep, pyTruthy, pyLoads_emptyObj]
    · simp [decodeStep, pyTruthy]
  | dict kvs =>
    cases kvs
    · simp [decodeStep, pyTruthy, pyLoads_emptyObj]
    · simp [decodeStep, pyTruthy]

/-- C10 as stated is false in its "only when" part: a falsy value that is
none of None, the empty string, an empty structure, or a JSON-encoded
string — here the integer 0 — still constructs successfully, the field
decoding to the empty dict like every falsy value. -/
theorem c10_counterexample :
    Object.construct etJson [("params", Py.int 0)] =
      some { fields := [("params", Py.dict [])], parent := none } ∧
    Py.int 0 ≠ Py.null ∧ Py.int 0 ≠ Py.str "" ∧ Py.int 0 ≠ Py.dict [] ∧
    Py.int 0 ≠ Py.list [] ∧
    (match Py.int 0 with | Py.str _ => true | _ => false) = false :=
  ⟨by rfl, by simp, by simp, by simp, by simp, rfl⟩

/-- C10 amended, with the claim's headline: __post_init__ applies
json.loads to every declared JSON field unconditionally, so direct
construction of an unsaved instance succeeds exactly when each JSON
field's initial value (keyword or declared default) is falsy — None,
False, 0, the empty string or an empty structure, all decoding to the
empty dict — or a truthy string holding valid JSON text; in particular a
keyword that passes an already-decoded non-empty structure (truthy and
not a string) makes construction raise. -/
theorem c10_construct_json_fields (et : EntityType) (kwargs : List (String × Py))
    (hall : kwargs.all (fun kv => decide (kv.1 ∈ et.fieldNames)) = true)
    (hjf : ∀ f ∈ et.jsonFields, f ∈ et.fieldNames)
    (hjnd : et.jsonFields.Nodup) :
    ((Object.construct et kwargs).isSome = true ↔
      ∀ f ∈ et.jsonFields,
        pyTruthy ((assocGet kwargs f).getD (et.defaultOf f)) = false ∨
        ∃ s, (assocGet kwargs f).getD (et.defaultOf f) = Py.str s ∧
          (pyLoads s).isSome = true) ∧
    (∀ f ∈ et.jsonFields, ∀ v, assocGet kwargs f = some v →
      pyTruthy v = true → (∀ s, v ≠ Py.str s) → Object.construct et kwargs = none) := by
  rw [construct_eq et kwargs hall]
  have hinit : ∀ f ∈ et.jsonFields,
      Obj.getAttr { fields := et.fieldNames.map (fun n =>
          (n, (assocGet kwargs n).getD (et.defaultOf n))), parent := none } f =
      some ((assocGet kwargs f).getD (et.defaultOf f)) := by
    intro f hf
    simp only [Obj.getAttr]
    rw [assocGet_map_self, if_pos (hjf f hf)]
  constructor
  · constructor
    · intro hsome
      obtain ⟨e, he⟩ := Option.isSome_iff_exists.mp hsome
      obtain ⟨h1, h2, hmem, h4⟩ := postInitAux_spec _ _ _ hjnd he
      intro f hf
      have hs := (hmem f hf).2
      rw [hinit f hf] at hs
      exact (decodeStep_some_iff _).mp hs
    · intro hdec
      obtain ⟨e, he⟩ := postInitAux_some et.jsonFields _ hjnd (by
        intro f hf
        rw [hinit f hf]
        exact (decodeStep_some_iff _).mpr (hdec f hf))
      rw [he]
      rfl
  · intro f hf v hv htv hnstr
    cases hc : Object.postInitAux et.jsonFields
        { fields := et.fieldNames.map (fun n =>
            (n, (assocGet kwargs n).getD (et.defaultOf n))), parent := none } with
    | none => rfl
    | some e =>
      exfalso
      obtain ⟨h1, h2, hmem, h4⟩ := postInitAux_spec _ _ _ hjnd hc
      have hs := (hmem f hf).2
      rw [hinit f hf] at hs
      simp only [hv, Option.getD_some] at hs
      rw [decodeStep_some_iff] at hs
      rcases hs with hs | ⟨s, hseq, _⟩
      · rw [htv] at hs
        cases hs
      · exact hnstr s hseq

/-- Witness for c10_construct_json_fields: a JSON field given valid JSON
text constructs successfully. -/
theorem c10_construct_json_fields_w :
    (Object.construct etJson [("params", Py.str "[1]")]).isSome = true := by
  have h := c10_construct_json_fields etJson [("params", Py.str "[1]")]
    (by decide) (by decide) (by decide)
  refine h.1.mpr ?_
  intro f hf
  simp only [etJson] at hf
  rw [List.mem_singleton] at hf
  subst hf
  right
  exact ⟨"[1]", by rfl, by rfl⟩
